import Mathlib

/-
Shallow embedding of the lib-lexin lexical scanner (src/lib.rs).

Modelling conventions:
  - A Rust byte buffer is a List Nat (one Nat per byte, values 0..255).
  - A Rust String is modelled by the List Nat of its UTF-8 bytes, so byte
    indexed slicing in lex_token (token[0..1], token[len-1..len],
    token[1..len-1]) is exact.
  - String::from_utf8 on a single byte succeeds exactly when the byte is
    below 128; failure is the .error outcome of the scan.
  - The cast byte-as-char in Rust produces the character whose code point
    is the byte value; appending it to a String contributes that
    character's UTF-8 encoding (utf8Char below).
  - parse for usize follows the Rust unsigned integer grammar (optional
    plus sign, one or more ASCII digits, value below 2 to the 64) and
    parse for f64 follows the documented Rust float grammar (optional
    sign, decimal forms with optional fraction and exponent, plus the
    case-insensitive words inf, infinity, nan).  The finite float value is
    modelled as the exact rational of the literal; the rounding of that
    rational to the nearest double is not modelled, which is irrelevant to
    every property proved here.
  - The println side effect on force-close is ignored.
  - In Section mode the source reads section[0].start, which would panic
    on an empty candidate list; that state is unreachable (Section mode is
    only entered when at least one candidate is pushed, and candidates are
    cleared exactly when the mode returns to Normal), and the model reads
    a default there.
-/

namespace LibLexin

abbrev Loc := Nat × Nat

/-- UTF-8 bytes of an ASCII Lean string literal. -/
def strBytes (s : String) : List Nat := s.toList.map Char.toNat

/-- Value of an f64 produced by the Rust float parser: a finite value
(exact rational of the literal), a signed infinity or a nan. -/
inductive FVal where
  | finite : ℚ → FVal
  | inf : Bool → FVal
  | nan : FVal
deriving DecidableEq

/-- The Token enum of the source.  Payload strings are byte lists, the
Symbol character is its code point. -/
inductive Token where
  | Keyword : List Nat → Loc → Token
  | Section : List Nat → List Nat → Loc → Token
  | Integer : Nat → Loc → Token
  | Float : FVal → Loc → Token
  | Symbol : Nat → List Nat → Loc → Token
  | Ident : List Nat → Loc → Token
deriving DecidableEq

/-- A token with its location stripped, used to state order-of-emission
properties that do not constrain locations. -/
inductive TokenData where
  | Keyword : List Nat → TokenData
  | Section : List Nat → List Nat → TokenData
  | Integer : Nat → TokenData
  | Float : FVal → TokenData
  | Symbol : Nat → List Nat → TokenData
  | Ident : List Nat → TokenData
deriving DecidableEq

def Token.data : Token → TokenData
  | .Keyword s _ => .Keyword s
  | .Section n t _ => .Section n t
  | .Integer n _ => .Integer n
  | .Float v _ => .Float v
  | .Symbol c n _ => .Symbol c n
  | .Ident s _ => .Ident s

/-- The Section struct of the source: name, start marker, end marker. -/
structure Section where
  name : List Nat
  start : List Nat
  «end» : List Nat
deriving DecidableEq

/-- The Value enum of the source. -/
inductive Value where
  | Start : List Nat → Value
  | End : List Nat → List Nat → Value

/-- The StartOrSection enum of the source. -/
inductive StartOrSection where
  | Start : List (List Nat) → StartOrSection
  | Section : LibLexin.Section → StartOrSection

/-- The Mode enum of the source. -/
inductive Mode where
  | Section
  | Normal
deriving DecidableEq

/-- The Lexer struct of the source. -/
structure Lexer where
  keywords : List (List Nat)
  sections : List Section
  symbols : List (Nat × List Nat)
  buffer : List Nat
  allow_whitespace : Bool

/-- First symbol entry whose character matches, as in the loop of
symbols_contain. -/
def symbolsLookup : List (Nat × List Nat) → Nat → Option (List Nat)
  | [], _ => none
  | s :: rest, v => if s.1 = v then some s.2 else symbolsLookup rest v

def Lexer.symbols_contain (L : Lexer) (value : Nat) : Option (List Nat) :=
  symbolsLookup L.symbols value

/-- The section_exists method: first section matching both markers. -/
def section_exists : List Section → List Nat → List Nat → Option (List Nat)
  | [], _, _ => none
  | sec :: rest, s, e =>
    if sec.start = s ∧ sec.«end» = e then some sec.name
    else section_exists rest s e

/-- Loop body of the is_section method: walks the section list, collecting
end markers of sections whose start matches (Start query), or returning
the first section matching both markers (End query). -/
def is_sectionGo (value : Value) : List Section → List (List Nat) → Option StartOrSection
  | [], ms => if ms ≠ [] then some (.Start ms) else none
  | sec :: rest, ms =>
    match value with
    | .Start s =>
      if sec.start = s then is_sectionGo value rest (ms ++ [sec.«end»])
      else is_sectionGo value rest ms
    | .End s e =>
      if sec.«end» = e ∧ sec.start = s then some (.Section sec)
      else is_sectionGo value rest ms

def Lexer.is_section (L : Lexer) (value : Value) : Option StartOrSection :=
  is_sectionGo value L.sections []

/-- ASCII digit test. -/
def isDigit (b : Nat) : Bool := decide (48 ≤ b ∧ b ≤ 57)

/-- Value of a digit string. -/
def digitsVal (l : List Nat) : Nat := l.foldl (fun a b => a * 10 + (b - 48)) 0

/-- Rust usize parsing: optional leading plus sign, then one or more ASCII
digits, rejecting overflow past 2 to the 64. -/
def parseUsize (s : List Nat) : Option Nat :=
  let t := match s with
    | 43 :: r => r
    | r => r
  if t ≠ [] ∧ (∀ b ∈ t, isDigit b) ∧ digitsVal t < 2 ^ 64 then
    some (digitsVal t)
  else none

def toLower (b : Nat) : Nat := if 65 ≤ b ∧ b ≤ 90 then b + 32 else b

/-- Optional exponent suffix of a float literal: empty, or the letter e or
E followed by an optionally signed nonempty digit string. -/
def parseExp : List Nat → Option Int
  | [] => some 0
  | b :: r =>
    if b = 101 ∨ b = 69 then
      let p : Bool × List Nat := match r with
        | 43 :: r2 => (false, r2)
        | 45 :: r2 => (true, r2)
        | r2 => (false, r2)
      if p.2 ≠ [] ∧ (∀ x ∈ p.2, isDigit x) then
        some (if p.1 then -(digitsVal p.2 : Int) else (digitsVal p.2 : Int))
      else none
    else none

/-- Exact rational value of a finite decimal literal. -/
def decimalVal (neg : Bool) (d1 d2 : List Nat) (ex : Int) : FVal :=
  let m : ℚ := (digitsVal d1 : ℚ) + (digitsVal d2 : ℚ) / (10 : ℚ) ^ d2.length
  let v : ℚ := m * (10 : ℚ) ^ ex
  .finite (if neg then -v else v)

/-- Rust f64 parsing grammar. -/
def parseF64 (s : List Nat) : Option FVal :=
  let p : Bool × List Nat := match s with
    | 43 :: r => (false, r)
    | 45 :: r => (true, r)
    | r => (false, r)
  let neg := p.1
  let t := p.2
  let low := t.map toLower
  if low = strBytes "inf" ∨ low = strBytes "infinity" then some (.inf neg)
  else if low = strBytes "nan" then some .nan
  else
    let d1 := t.takeWhile isDigit
    let r1 := t.dropWhile isDigit
    if d1 = [] then
      match r1 with
      | 46 :: r2 =>
        let d2 := r2.takeWhile isDigit
        let r3 := r2.dropWhile isDigit
        if d2 ≠ [] then (parseExp r3).map (decimalVal neg d1 d2) else none
      | _ => none
    else
      match r1 with
      | [] => some (decimalVal neg d1 [] 0)
      | 46 :: r2 =>
        let d2 := r2.takeWhile isDigit
        let r3 := r2.dropWhile isDigit
        (parseExp r3).map (decimalVal neg d1 d2)
      | r1x => (parseExp r1x).map (decimalVal neg d1 [])

/-- The is_numeric method: usize first, then f64, then Ident. -/
def is_numeric (token : List Nat) (loc : Loc) : Token :=
  match parseUsize token with
  | some n => .Integer n loc
  | none =>
    match parseF64 token with
    | some v => .Float v loc
    | none => .Ident token loc

/-- The lex_token method.  Slicing in the source is byte based and the
byte list model reproduces it exactly.  In the length-one branch the
single character of a one-byte Rust String is the character of that byte
(a one-byte String is necessarily ASCII). -/
def lex_token (L : Lexer) (token : List Nat) (loc : Loc) : Option Token :=
  if token = [10] then none
  else if token = [] then
    if L.allow_whitespace then some (.Ident [32] loc) else none
  else if token ∈ L.keywords then some (.Keyword token loc)
  else if token.length = 1 then
    let character := token.headD 0
    match L.symbols_contain character with
    | some name => some (.Symbol character name loc)
    | none => some (is_numeric token loc)
  else
    match section_exists L.sections (token.take 1) (token.drop (token.length - 1)) with
    | some name => some (.Section name ((token.drop 1).dropLast) loc)
    | none => some (is_numeric token loc)

/-- Transient scan state of tokenize: mode, pending token text, emitted
tokens, candidate sections, location cursor. -/
structure St where
  mode : Mode
  token : List Nat
  tokens : List Token
  sect : List Section
  loc : Loc

/-- Location cursor update at the bottom of the loop body. -/
def locStep (b : Nat) (loc : Loc) : Loc :=
  if b = 10 then (loc.1 + 1, 1) else (loc.1, loc.2 + 1)

/-- UTF-8 encoding of the character whose code point is a byte value
(0..255): the Rust append of byte-as-char in the escape branch. -/
def utf8Char (b : Nat) : List Nat :=
  if b < 128 then [b] else [192 + b / 64, 128 + b % 64]

/-- The while loop of tokenize, one recursive call per loop iteration on
the remaining buffer.  The processing block runs only when a next byte
exists; the force-close disjunct index plus two at least the length
becomes: at most one byte after the next one; the escape branch consumes
two bytes and advances the cursor once, keyed on the backslash. -/
def run (L : Lexer) (st : St) : List Nat → Except Unit (List Token)
  | [] => .ok st.tokens
  | b :: rest =>
    if b < 128 then
      match rest with
      | [] => .ok st.tokens
      | r1 :: rest2 =>
        match st.mode with
        | .Normal =>
          let st1 :=
            match L.is_section (.Start [b]) with
            | some (.Start ends) =>
              { st with token := st.token ++ [b],
                        sect := st.sect ++ ends.map (fun e => Section.mk [] [b] e),
                        mode := .Section }
            | _ =>
              if b = 10 then
                { st with tokens := st.tokens ++ (lex_token L st.token st.loc).toList,
                          token := [] }
              else if b ≠ 32 then
                { st with token := st.token ++ [b] }
              else st
          let st2 :=
            if ((L.symbols_contain b).isSome ∨ (L.symbols_contain r1).isSome)
                ∧ st1.sect.length = 0 then
              { st1 with tokens := st1.tokens ++ (lex_token L st1.token st1.loc).toList,
                         token := [] }
            else st1
          run L { st2 with loc := locStep b st2.loc } (r1 :: rest2)
        | .Section =>
          if b = 92 then
            run L { st with token := st.token ++ utf8Char r1,
                            loc := locStep b st.loc } rest2
          else if (L.is_section (.End (st.sect.headD (Section.mk [] [] [])).start [b])).isSome
                  ∨ rest.length ≤ 1 then
            run L { st with tokens := st.tokens ++ (lex_token L (st.token ++ [b]) st.loc).toList,
                            token := [], sect := [], mode := .Normal,
                            loc := locStep b st.loc } (r1 :: rest2)
          else
            run L { st with token := st.token ++ [b], loc := locStep b st.loc } (r1 :: rest2)
    else .error ()

/-- Initial scan state of tokenize. -/
def initSt : St := ⟨.Normal, [], [], [], (1, 1)⟩

/-- The tokenize method.  The first component is the lexer after the lazy
space-symbol injection (the only mutation of the receiver); the second is
the scan result. -/
def tokenize (L : Lexer) : Lexer × Except Unit (List Token) :=
  let Lp := if (L.symbols_contain 32).isNone
            then { L with symbols := L.symbols ++ [(32, strBytes "Space")] }
            else L
  (Lp, run Lp initSt Lp.buffer)

/-- Location cursor after consuming a list of bytes. -/
def locsFold (T : List Nat) (l : Loc) : Loc := T.foldl (fun a b => locStep b a) l

section Lemmas

theorem symbolsLookup_append (S T : List (Nat × List Nat)) (v : Nat) :
    symbolsLookup (S ++ T) v
      = match symbolsLookup S v with
        | some n => some n
        | none => symbolsLookup T v := by
  induction S with
  | nil => simp [symbolsLookup]
  | cons s rest ih =>
    by_cases h : s.1 = v
    · simp [symbolsLookup, h]
    · simp [symbolsLookup, h, ih]

theorem tokenize_fst (L : Lexer) :
    (tokenize L).1 = if (L.symbols_contain 32).isNone
      then { L with symbols := L.symbols ++ [(32, strBytes "Space")] }
      else L := rfl

theorem tokenize_snd (L : Lexer) :
    (tokenize L).2 = run (tokenize L).1 initSt (tokenize L).1.buffer := rfl

theorem tokenize_fst_keywords (L : Lexer) : (tokenize L).1.keywords = L.keywords := by
  rw [tokenize_fst]; split <;> rfl

theorem tokenize_fst_sections (L : Lexer) : (tokenize L).1.sections = L.sections := by
  rw [tokenize_fst]; split <;> rfl

theorem tokenize_fst_buffer (L : Lexer) : (tokenize L).1.buffer = L.buffer := by
  rw [tokenize_fst]; split <;> rfl

theorem tokenize_fst_allow (L : Lexer) :
    (tokenize L).1.allow_whitespace = L.allow_whitespace := by
  rw [tokenize_fst]; split <;> rfl

theorem run_nil (L : Lexer) (st : St) : run L st [] = .ok st.tokens := rfl

theorem run_single (L : Lexer) (st : St) (b : Nat) :
    run L st [b] = if b < 128 then .ok st.tokens else .error () := by
  by_cases hb : b < 128 <;> simp [run, hb]

theorem run_error (L : Lexer) (st : St) (b : Nat) (rest : List Nat) (hb : 128 ≤ b) :
    run L st (b :: rest) = .error () := by
  have h : ¬ b < 128 := by omega
  rw [run.eq_def]
  simp [h]

theorem run_section_escape (L : Lexer) (tok : List Nat) (ts : List Token)
    (cands : List Section) (l : Loc) (x : Nat) (rest2 : List Nat) :
    run L ⟨.Section, tok, ts, cands, l⟩ (92 :: x :: rest2)
      = run L ⟨.Section, tok ++ utf8Char x, ts, cands, locStep 92 l⟩ rest2 := rfl

theorem run_normal_start (L : Lexer) (b r1 : Nat) (rest2 : List Nat)
    (tok : List Nat) (ts : List Token) (sct : List Section) (l : Loc)
    (ends : List (List Nat)) (hb : b < 128)
    (hse : L.is_section (.Start [b]) = some (.Start ends)) (hne : ends ≠ []) :
    run L ⟨.Normal, tok, ts, sct, l⟩ (b :: r1 :: rest2)
      = run L ⟨.Section, tok ++ [b], ts,
               sct ++ ends.map (fun e => Section.mk [] [b] e), locStep b l⟩
          (r1 :: rest2) := by
  rw [run.eq_def]
  simp only [hb, if_true, hse]
  have hc : ¬ (((L.symbols_contain b).isSome = true ∨ (L.symbols_contain r1).isSome = true)
      ∧ (sct ++ ends.map (fun e => Section.mk [] [b] e)).length = 0) := by
    rintro ⟨-, h2⟩
    rw [List.length_append, List.length_map] at h2
    exact hne (List.length_eq_zero.mp (by omega))
  rw [if_neg hc]

theorem run_section_append (L : Lexer) (b r1 : Nat) (rest2 : List Nat)
    (tok : List Nat) (ts : List Token) (cands : List Section) (l : Loc)
    (hb : b < 128) (h92 : b ≠ 92)
    (hcl : L.is_section (.End ((cands.headD (Section.mk [] [] [])).start) [b]) = none)
    (hne : rest2 ≠ []) :
    run L ⟨.Section, tok, ts, cands, l⟩ (b :: r1 :: rest2)
      = run L ⟨.Section, tok ++ [b], ts, cands, locStep b l⟩ (r1 :: rest2) := by
  rw [run.eq_def]
  simp only [hb, if_true]
  rw [if_neg h92]
  have hc : ¬ ((L.is_section
        (.End ((cands.headD (Section.mk [] [] [])).start) [b])).isSome = true
      ∨ (r1 :: rest2 : List Nat).length ≤ 1) := by
    rintro (h1 | h2)
    · rw [hcl] at h1; simp at h1
    · have h0 : rest2.length = 0 := by
        rw [List.length_cons] at h2; omega
      exact hne (List.length_eq_zero.mp h0)
  rw [if_neg hc]

theorem run_section_close (L : Lexer) (b r1 : Nat) (rest2 : List Nat)
    (tok : List Nat) (ts : List Token) (cands : List Section) (l : Loc)
    (hb : b < 128) (h92 : b ≠ 92)
    (hcl : (L.is_section (.End ((cands.headD (Section.mk [] [] [])).start) [b])).isSome
           ∨ (r1 :: rest2 : List Nat).length ≤ 1) :
    run L ⟨.Section, tok, ts, cands, l⟩ (b :: r1 :: rest2)
      = run L ⟨.Normal, [], ts ++ (lex_token L (tok ++ [b]) l).toList, [],
               locStep b l⟩ (r1 :: rest2) := by
  rw [run.eq_def]
  simp only [hb, if_true]
  rw [if_neg h92, if_pos hcl]

theorem run_section_skip (L : Lexer) (u v : Nat) :
    ∀ (T tok : List Nat) (ts : List Token) (cands : List Section) (l : Loc),
      (∀ t ∈ T, t < 128 ∧ t ≠ 92
        ∧ L.is_section (.End ((cands.headD (Section.mk [] [] [])).start) [t]) = none) →
      run L ⟨.Section, tok, ts, cands, l⟩ (T ++ [u, v])
        = run L ⟨.Section, tok ++ T, ts, cands, locsFold T l⟩ [u, v] := by
  intro T
  induction T with
  | nil => intro tok ts cands l _; simp [locsFold]
  | cons t T ih =>
    intro tok ts cands l hT
    have h := hT t (by simp)
    cases hsplit : T ++ [u, v] with
    | nil => exact absurd hsplit (by simp)
    | cons r1 rest2 =>
      have hne : rest2 ≠ [] := by
        have hlen : (T ++ [u, v]).length = rest2.length + 1 := by rw [hsplit]; simp
        simp only [List.length_append] at hlen
        intro hc
        rw [hc] at hlen
        simp at hlen
      rw [List.cons_append, hsplit,
          run_section_append L t r1 rest2 tok ts cands l h.1 h.2.1 h.2.2 hne,
          ← hsplit,
          ih (tok ++ [t]) ts cands (locStep t l) (fun x hx => hT x (by simp [hx]))]
      simp [locsFold, List.append_assoc]

theorem run_isOk_of_ascii :
    ∀ (n : Nat) (buf : List Nat), buf.length ≤ n →
      ∀ (L : Lexer) (st : St), (∀ b ∈ buf, b < 128) →
        ∃ ts, run L st buf = .ok ts := by
  intro n
  induction n with
  | zero =>
    intro buf hlen L st _
    have hb : buf = [] := List.eq_nil_of_length_eq_zero (Nat.le_zero.mp hlen)
    subst hb
    exact ⟨st.tokens, rfl⟩
  | succ n ih =>
    intro buf hlen L st hascii
    match buf with
    | [] => exact ⟨st.tokens, rfl⟩
    | [b] =>
      have hb : b < 128 := hascii b (by simp)
      exact ⟨st.tokens, by simp [run, hb]⟩
    | b :: r1 :: rest2 =>
      have hb : b < 128 := hascii b (by simp)
      have hlen1 : (r1 :: rest2 : List Nat).length ≤ n := by
        simp only [List.length_cons] at hlen ⊢; omega
      have hlen2 : rest2.length ≤ n := by
        simp only [List.length_cons] at hlen; omega
      have hasc1 : ∀ x ∈ (r1 :: rest2 : List Nat), x < 128 := by
        intro x hx; exact hascii x (by simp at hx ⊢; tauto)
      have hasc2 : ∀ x ∈ rest2, x < 128 := by
        intro x hx; exact hascii x (by simp [hx])
      rw [run.eq_def]
      simp only [hb, if_true]
      cases hm : st.mode
      case Normal => exact ih _ hlen1 L _ hasc1
      case Section =>
        by_cases h92 : b = 92
        · simp only [h92, if_true]
          exact ih _ hlen2 L _ hasc2
        · rw [if_neg h92]
          by_cases hcl : (L.is_section
                (.End ((st.sect.headD (Section.mk [] [] [])).start) [b])).isSome
              ∨ (r1 :: rest2 : List Nat).length ≤ 1
          · rw [if_pos hcl]
            exact ih _ hlen1 L _ hasc1
          · rw [if_neg hcl]
            exact ih _ hlen1 L _ hasc1

theorem run_single_section_start (L : Lexer) (nm : List Nat) (s : Nat)
    (e : List Nat) (R : List Nat) (hs : s < 128)
    (hsec : L.sections = [⟨nm, [s], e⟩]) (hR : R ≠ []) :
    run L initSt (s :: R)
      = run L ⟨.Section, [s], [], [Section.mk [] [s] e], locStep s (1, 1)⟩ R := by
  obtain ⟨r1, rest2, rfl⟩ := List.exists_cons_of_ne_nil hR
  have hstart : L.is_section (.Start [s]) = some (.Start [e]) := by
    unfold Lexer.is_section
    rw [hsec]
    simp [is_sectionGo]
  rw [show initSt = (⟨.Normal, [], [], [], (1, 1)⟩ : St) from rfl]
  rw [run_normal_start L s r1 rest2 [] [] [] (1, 1) [e] hs hstart (by simp)]
  simp only [List.nil_append, List.map_cons, List.map_nil]

theorem lex_token_section_eval (L : Lexer) (nm : List Nat) (s eb : Nat)
    (T : List Nat) (l : Loc) (hsec : L.sections = [⟨nm, [s], [eb]⟩])
    (hkw : (s :: (T ++ [eb])) ∉ L.keywords) :
    lex_token L (s :: (T ++ [eb])) l = some (.Section nm T l) := by
  have hlen : (s :: (T ++ [eb]) : List Nat).length = T.length + 2 := by simp
  have h10 : ¬ (s :: (T ++ [eb]) : List Nat) = [10] := by
    intro hc
    have hcl := congrArg List.length hc
    rw [hlen] at hcl
    simp at hcl
  have hne : ¬ (s :: (T ++ [eb]) : List Nat) = [] := by simp
  have hl1 : ¬ (s :: (T ++ [eb]) : List Nat).length = 1 := by rw [hlen]; omega
  have htake : (s :: (T ++ [eb]) : List Nat).take 1 = [s] := rfl
  have hdrop : (s :: (T ++ [eb]) : List Nat).drop
      ((s :: (T ++ [eb]) : List Nat).length - 1) = [eb] := by
    rw [hlen]
    show (s :: (T ++ [eb]) : List Nat).drop (T.length + 1) = [eb]
    rw [List.drop_succ_cons]
    exact List.drop_left T [eb]
  have hex : section_exists [⟨nm, [s], [eb]⟩] [s] [eb] = some nm := by
    simp [section_exists]
  have htext : ((s :: (T ++ [eb]) : List Nat).drop 1).dropLast = T := by
    rw [List.drop_succ_cons]
    simp [List.dropLast_concat]
  unfold lex_token
  rw [if_neg h10, if_neg hne, if_neg hkw, if_neg hl1]
  simp only [hsec, htake, hdrop, hex, htext]

theorem lex_token_empty_none (L : Lexer) (l : Loc)
    (haw : L.allow_whitespace = false) : lex_token L [] l = none := by
  unfold lex_token
  simp [haw]

theorem lex_token_symbol_eval (L : Lexer) (b : Nat) (l : Loc) (nmv : List Nat)
    (hkw : L.keywords = []) (h10 : b ≠ 10)
    (hsym : L.symbols_contain b = some nmv) :
    lex_token L [b] l = some (.Symbol b nmv l) := by
  unfold lex_token
  rw [if_neg (by simp [h10] : ¬ ([b] : List Nat) = [10])]
  rw [if_neg (by simp : ¬ ([b] : List Nat) = [])]
  rw [if_neg (by rw [hkw]; simp : ¬ ([b] : List Nat) ∈ L.keywords)]
  rw [if_pos (by simp : ([b] : List Nat).length = 1)]
  show (match L.symbols_contain b with
    | some name => some (Token.Symbol b name l)
    | none => some (is_numeric [b] l)) = some (.Symbol b nmv l)
  rw [hsym]

theorem run_normal_newline (L : Lexer) (r1 : Nat) (rest2 : List Nat)
    (ts : List Token) (l : Loc) (hstart : L.is_section (.Start [10]) = none)
    (hlex : lex_token L [] l = none) :
    run L ⟨.Normal, [], ts, [], l⟩ (10 :: r1 :: rest2)
      = run L ⟨.Normal, [], ts, [], locStep 10 l⟩ (r1 :: rest2) := by
  rw [run.eq_def]
  simp [hstart, hlex]

theorem run_normal_space (L : Lexer) (r1 : Nat) (rest2 : List Nat)
    (ts : List Token) (l : Loc) (hstart : L.is_section (.Start [32]) = none)
    (hlex : lex_token L [] l = none) :
    run L ⟨.Normal, [], ts, [], l⟩ (32 :: r1 :: rest2)
      = run L ⟨.Normal, [], ts, [], locStep 32 l⟩ (r1 :: rest2) := by
  rw [run.eq_def]
  simp [hstart, hlex]

theorem run_normal_symbol (L : Lexer) (b r1 : Nat) (rest2 : List Nat)
    (ts : List Token) (l : Loc) (hb : b < 128)
    (hstart : L.is_section (.Start [b]) = none)
    (h10 : b ≠ 10) (h32 : b ≠ 32)
    (hsym : (L.symbols_contain b).isSome) :
    run L ⟨.Normal, [], ts, [], l⟩ (b :: r1 :: rest2)
      = run L ⟨.Normal, [], ts ++ (lex_token L [b] l).toList, [],
               locStep b l⟩ (r1 :: rest2) := by
  rw [run.eq_def]
  simp only [hb, if_true, hstart]
  rw [if_neg h10, if_pos h32]
  rw [if_pos (by exact ⟨Or.inl hsym, rfl⟩ :
      ((L.symbols_contain b).isSome = true ∨ (L.symbols_contain r1).isSome = true)
      ∧ ([] : List Section).length = 0)]
  rfl

theorem run_symbols_scan (L : Lexer) (S0 : List (Nat × List Nat))
    (hkw : L.keywords = []) (hsec : L.sections = [])
    (haw : L.allow_whitespace = false)
    (hS : ∀ b, b ≠ 32 → L.symbols_contain b = symbolsLookup S0 b) :
    ∀ (B : List Nat) (ts : List Token) (l : Loc),
      (∀ b ∈ B, b < 128 ∧ (b = 32 ∨ b = 10 ∨ (symbolsLookup S0 b).isSome)) →
      Except.map (List.map Token.data) (run L ⟨.Normal, [], ts, [], l⟩ B)
        = .ok (ts.map Token.data
            ++ (B.dropLast.filter (fun b => decide (¬(b = 32 ∨ b = 10)))).map
                (fun b => TokenData.Symbol b ((symbolsLookup S0 b).getD []))) := by
  have hnostart : ∀ c : Nat, L.is_section (.Start [c]) = none := by
    intro c
    unfold Lexer.is_section
    rw [hsec]
    simp [is_sectionGo]
  intro B
  induction B with
  | nil =>
    intro ts l _
    simp [run_nil, Except.map]
  | cons b rest ih =>
    intro ts l hB
    obtain ⟨hb, hbc⟩ := hB b (by simp)
    cases rest with
    | nil =>
      rw [run_single, if_pos hb]
      simp [Except.map]
    | cons r1 rest2 =>
      have hdl : (b :: r1 :: rest2 : List Nat).dropLast
          = b :: (r1 :: rest2).dropLast := rfl
      have hBrest : ∀ x ∈ (r1 :: rest2 : List Nat),
          x < 128 ∧ (x = 32 ∨ x = 10 ∨ (symbolsLookup S0 x).isSome) := by
        intro x hx
        exact hB x (by simp [hx])
      by_cases h10 : b = 10
      · subst h10
        rw [run_normal_newline L r1 rest2 ts l (hnostart 10)
            (lex_token_empty_none L l haw)]
        rw [ih ts (locStep 10 l) hBrest]
        rw [hdl]
        simp [List.filter_cons]
      · by_cases h32 : b = 32
        · subst h32
          rw [run_normal_space L r1 rest2 ts l (hnostart 32)
              (lex_token_empty_none L l haw)]
          rw [ih ts (locStep 32 l) hBrest]
          rw [hdl]
          simp [List.filter_cons]
        · have hsym0 : (symbolsLookup S0 b).isSome := by
            rcases hbc with h | h | h
            · exact absurd h h32
            · exact absurd h h10
            · exact h
          have hsymL : (L.symbols_contain b).isSome := by
            rw [hS b h32]; exact hsym0
          obtain ⟨nmv, hnm⟩ := Option.isSome_iff_exists.mp hsym0
          rw [run_normal_symbol L b r1 rest2 ts l hb (hnostart b) h10 h32 hsymL]
          rw [lex_token_symbol_eval L b l nmv hkw h10 (by rw [hS b h32]; exact hnm)]
          simp only [Option.toList_some]
          refine (ih (ts ++ [Token.Symbol b nmv l]) (locStep b l) hBrest).trans ?_
          rw [hdl]
          have hkeep : (fun x => decide (¬(x = 32 ∨ x = 10))) b = true := by
            simp [h32, h10]
          simp [List.filter_cons, hkeep, hnm, Token.data, List.append_assoc]
          rw [if_pos (⟨h32, h10⟩ : ¬b = 32 ∧ ¬b = 10)]
          simp [hnm]

theorem lex_token_isSome (L : Lexer) (tok : List Nat) (l : Loc)
    (hne : tok ≠ []) (h10 : tok ≠ [10]) :
    ∃ tk, lex_token L tok l = some tk := by
  unfold lex_token
  rw [if_neg h10, if_neg hne]
  by_cases hk : tok ∈ L.keywords
  · exact ⟨_, by rw [if_pos hk]⟩
  · rw [if_neg hk]
    by_cases hl : tok.length = 1
    · rw [if_pos hl]
      show ∃ tk, (match L.symbols_contain (tok.headD 0) with
        | some name => some (Token.Symbol (tok.headD 0) name l)
        | none => some (is_numeric tok l)) = some tk
      cases hsym : L.symbols_contain (tok.headD 0) with
      | some nmx => exact ⟨_, rfl⟩
      | none => exact ⟨_, rfl⟩
    · rw [if_neg hl]
      cases hsx : section_exists L.sections (tok.take 1) (tok.drop (tok.length - 1)) with
      | some nmx => exact ⟨_, rfl⟩
      | none => exact ⟨_, rfl⟩

end Lemmas

/-- C2 (amended): when the scan loop reaches the final byte of the buffer
as the current byte, no branch of the state machine runs: whatever the
mode, pending text, candidates and location, the byte is only decoded for
validity (an invalid byte aborts the call) and the already-emitted tokens
are returned unchanged; nothing is appended and nothing is emitted at
that step.  (The final byte can still influence the scan indirectly, as
the lookahead byte of the symbol flush or as an escaped byte, which is
what the original claim overlooked.) -/
theorem c2_final_byte_never_current (L : Lexer) (st : St) (b : Nat) :
    run L st [b] = if b < 128 then .ok st.tokens else .error () := by
  by_cases hb : b < 128 <;> simp [run, hb]

/-- C2 counterexample to the original claim: with the close parenthesis a
registered symbol, the buffers consisting of the letter a followed by a
close parenthesis, and of the letters a and b, differ only in their final
byte, yet the first yields an emitted Ident token and the second yields
none: the final byte does trigger emission of a token (via the symbol
lookahead flush), contradicting the claim that it never does. -/
theorem c2_cex_final_byte_triggers_emission :
    (tokenize ⟨[], [], [(41, strBytes "close")], [97, 41], false⟩).2
      = .ok [.Ident [97] (1, 1)]
    ∧ (tokenize ⟨[], [], [(41, strBytes "close")], [97, 98], false⟩).2
      = .ok [] := ⟨rfl, rfl⟩

/-- C8: tokenize fails only when some buffer byte is not valid single-byte
text (at least 128), and when every byte is valid ASCII the call returns
Ok; the error outcome carries no tokens at all, so the failure is
all-or-nothing by construction. -/
theorem c8_error_only_on_bad_byte (L : Lexer) :
    ((∀ b ∈ L.buffer, b < 128) → ∃ ts, (tokenize L).2 = .ok ts)
    ∧ (∀ e : Unit, (tokenize L).2 = .error e → ∃ b ∈ L.buffer, 128 ≤ b) := by
  constructor
  · intro h
    rw [tokenize_snd, tokenize_fst_buffer]
    exact run_isOk_of_ascii L.buffer.length L.buffer le_rfl _ initSt h
  · intro e he
    by_contra hc
    push_neg at hc
    have hall : ∀ b ∈ L.buffer, b < 128 := by
      intro b hb
      have := hc b hb
      omega
    obtain ⟨ts, hts⟩ : ∃ ts, (tokenize L).2 = .ok ts := by
      rw [tokenize_snd, tokenize_fst_buffer]
      exact run_isOk_of_ascii L.buffer.length L.buffer le_rfl _ initSt hall
    rw [he] at hts
    exact Except.noConfusion hts

/-- C8 witness: a concrete all-ASCII buffer scans to Ok. -/
theorem c8_witness :
    ∃ ts, (tokenize ⟨[], [], [], [97, 98], false⟩).2 = .ok ts :=
  (c8_error_only_on_bad_byte ⟨[], [], [], [97, 98], false⟩).1 (by decide)

/-- C9 (amended): tokenize leaves keywords, sections, buffer and
allow_whitespace untouched; its only mutation appends the (space, Space)
entry to the symbol list, and only when no mapping for the space
character is present, so the injection is idempotent: a second call
returns the lexer unchanged and no call ever adds a second space entry.
(Space entries supplied by the caller are all kept, which is why the
original at-most-one-entry phrasing fails.) -/
theorem c9_frame_and_idempotence (L : Lexer) :
    ((tokenize L).1.keywords = L.keywords
      ∧ (tokenize L).1.sections = L.sections
      ∧ (tokenize L).1.buffer = L.buffer
      ∧ (tokenize L).1.allow_whitespace = L.allow_whitespace)
    ∧ ((tokenize L).1.symbols
        = if (L.symbols_contain 32).isNone
          then L.symbols ++ [(32, strBytes "Space")] else L.symbols)
    ∧ (tokenize (tokenize L).1).1 = (tokenize L).1 := by
  refine ⟨⟨tokenize_fst_keywords L, tokenize_fst_sections L,
          tokenize_fst_buffer L, tokenize_fst_allow L⟩, ?_, ?_⟩
  · rw [tokenize_fst]; split <;> simp_all
  · rw [tokenize_fst ((tokenize L).1)]
    have hsome : ¬ ((tokenize L).1.symbols_contain 32).isNone := by
      rw [tokenize_fst]
      by_cases h : (L.symbols_contain 32).isNone
      · simp only [h, if_true]
        unfold Lexer.symbols_contain at h ⊢
        simp only
        rw [symbolsLookup_append]
        cases hx : symbolsLookup L.symbols 32 with
        | none => simp [symbolsLookup]
        | some n => rw [hx] at h; simp at h
      · simp only [h, if_false]
        exact h
    rw [if_neg hsome]

/-- C9 counterexample to the original claim: a caller-supplied symbol list
already holding two mappings for the space character is left with both by
tokenize, so after the call the symbol list holds two space entries, not
at most one. -/
theorem c9_cex_two_space_entries :
    1 < ((tokenize ⟨[], [], [(32, [97]), (32, [98])], [], false⟩).1.symbols.countP
          (fun p => p.1 == 32)) := by decide

/-- C10 (amended): in Section mode a backslash consumes the immediately
following byte with no text-validity check: for every byte value,
including non-ASCII ones, the escape step appends the character whose
code point is that byte (its UTF-8 encoding in the byte model) to the
pending text and continues the scan, never producing an error at that
step, whereas the same byte reached as the current byte anywhere makes
the scan abort at once. -/
theorem c10_escaped_byte_never_errors :
    (∀ (L : Lexer) (tok : List Nat) (ts : List Token) (cands : List Section)
        (l : Loc) (x : Nat) (rest2 : List Nat),
      run L ⟨.Section, tok, ts, cands, l⟩ (92 :: x :: rest2)
        = run L ⟨.Section, tok ++ utf8Char x, ts, cands, locStep 92 l⟩ rest2)
    ∧ (∀ (L : Lexer) (st : St) (x : Nat) (rest : List Nat), 128 ≤ x →
        run L st (x :: rest) = .error ()) := by
  constructor
  · intro L tok ts cands l x rest2
    exact run_section_escape L tok ts cands l x rest2
  · intro L st x rest hx
    exact run_error L st x rest hx

/-- C10 witness: the escape step on the concrete non-ASCII byte 233
continues the scan with the byte consumed, while the same byte as the
current byte aborts. -/
theorem c10_witness :
    run ⟨[], [], [], [], false⟩ ⟨.Section, [], [], [], (1, 1)⟩ [92, 233, 41]
      = run ⟨[], [], [], [], false⟩ ⟨.Section, [195, 169], [], [], (1, 2)⟩ [41]
    ∧ run ⟨[], [], [], [], false⟩ ⟨.Normal, [], [], [], (1, 1)⟩ [233]
      = .error () :=
  ⟨c10_escaped_byte_never_errors.1 ⟨[], [], [], [], false⟩ [] [] [] (1, 1) 233 [41],
   c10_escaped_byte_never_errors.2 ⟨[], [], [], [], false⟩
     ⟨.Normal, [], [], [], (1, 1)⟩ 233 [] (by decide)⟩

/-- C10 counterexample to the raw-byte phrasing of the original claim: a
section whose body escapes the byte 233 tokenizes without error, but the
resulting Section text holds the two-byte UTF-8 encoding of code point
233, not the raw byte itself. -/
theorem c10_cex_escaped_byte_is_reencoded :
    (tokenize ⟨[], [⟨[115], [40], [41]⟩], [], [40, 92, 233, 41, 32], false⟩).2
      = .ok [.Section [115] [195, 169] (1, 3)]
    ∧ ([195, 169] : List Nat) ≠ [233] := ⟨rfl, by decide⟩

/-- C7: is_numeric tries the parsers in order: a text accepted by the
unsigned integer parser classifies as Integer; otherwise a text accepted
by the float parser classifies as Float; otherwise an Ident carrying the
literal text unchanged.  Concretely the text 10 always classifies as
Integer 10 and the text 10.5 always classifies as Float 10.5. -/
theorem c7_numeric_classification :
    (∀ (t : List Nat) (l : Loc) (n : Nat),
        parseUsize t = some n → is_numeric t l = .Integer n l)
    ∧ (∀ (t : List Nat) (l : Loc) (v : FVal),
        parseUsize t = none → parseF64 t = some v → is_numeric t l = .Float v l)
    ∧ (∀ (t : List Nat) (l : Loc),
        parseUsize t = none → parseF64 t = none → is_numeric t l = .Ident t l)
    ∧ (∀ l : Loc, is_numeric (strBytes "10") l = .Integer 10 l)
    ∧ (∀ l : Loc, is_numeric (strBytes "10.5") l = .Float (.finite (21 / 2)) l) := by
  refine ⟨?_, ?_, ?_, ?_, ?_⟩
  · intro t l n h; simp [is_numeric, h]
  · intro t l v h1 h2; simp [is_numeric, h1, h2]
  · intro t l h1 h2; simp [is_numeric, h1, h2]
  · intro l
    have h : parseUsize (strBytes "10") = some 10 := rfl
    simp [is_numeric, h]
  · intro l
    have h1 : parseUsize (strBytes "10.5") = none := rfl
    have h2 : parseF64 (strBytes "10.5") = some (decimalVal false [49, 48] [53] 0) := rfl
    have h3 : decimalVal false [49, 48] [53] 0 = FVal.finite (21 / 2) := by
      have d1 : ((digitsVal [49, 48] : Nat) : ℚ) = 10 := by norm_num [digitsVal]
      have d2 : ((digitsVal [53] : Nat) : ℚ) = 5 := by norm_num [digitsVal]
      simp only [decimalVal, d1, d2, List.length_singleton]
      norm_num
    simp [is_numeric, h1, h2, h3]

/-- C7 witness: the classification applied at the concrete digit string
42, discharging the integer-parse hypothesis. -/
theorem c7_witness :
    parseUsize [52, 50] = some 42
    ∧ is_numeric [52, 50] (1, 1) = .Integer 42 (1, 1) :=
  ⟨by decide, c7_numeric_classification.1 [52, 50] (1, 1) 42 (by decide)⟩

/-- C5 (amended): with two sections sharing a single-character start
marker but with distinct single-character end markers, a buffer holding
the start marker, the second section's end marker and at least one more
trailing byte produces the Section token named by the second declared
section.  The trailing byte is required because the scan loop never
processes the final byte; without it no token at all is produced (see the
counterexample). -/
theorem c5_second_section_wins (nA nB : List Nat) (s e1 e2 pad : Nat)
    (ks : List (List Nat)) (S : List (Nat × List Nat)) (aw : Bool)
    (hs : s < 128) (he2 : e2 < 128) (hpad : pad < 128)
    (h92 : e2 ≠ 92) (hne : e1 ≠ e2) (hk : ([s, e2] : List Nat) ∉ ks) :
    (tokenize ⟨ks, [⟨nA, [s], [e1]⟩, ⟨nB, [s], [e2]⟩], S, [s, e2, pad], aw⟩).2
      = .ok [.Section nB [] (locStep s (1, 1))] := by
  rw [tokenize_snd]
  set L0 : Lexer := ⟨ks, [⟨nA, [s], [e1]⟩, ⟨nB, [s], [e2]⟩], S, [s, e2, pad], aw⟩ with hL0
  set L1 : Lexer := (tokenize L0).1 with hL1
  have hsec : L1.sections = [⟨nA, [s], [e1]⟩, ⟨nB, [s], [e2]⟩] := tokenize_fst_sections L0
  have hkw : L1.keywords = ks := tokenize_fst_keywords L0
  have hbuf : L1.buffer = [s, e2, pad] := tokenize_fst_buffer L0
  rw [hbuf]
  have hstart : L1.is_section (.Start [s]) = some (.Start [[e1], [e2]]) := by
    unfold Lexer.is_section
    rw [hsec]
    simp [is_sectionGo]
  rw [show initSt = (⟨.Normal, [], [], [], (1, 1)⟩ : St) from rfl]
  rw [run_normal_start L1 s e2 [pad] [] [] [] (1, 1) [[e1], [e2]] hs hstart (by simp)]
  rw [run_section_close L1 e2 pad [] _ _ _ _ he2 h92 (Or.inr (by simp))]
  rw [run_single, if_pos hpad]
  have hlex : lex_token L1 (([] ++ [s]) ++ [e2]) (locStep s (1, 1))
      = some (.Section nB [] (locStep s (1, 1))) := by
    have hsh : (([] ++ [s]) ++ [e2] : List Nat) = [s, e2] := by simp
    rw [hsh]
    unfold lex_token
    rw [if_neg (by simp : ¬ ([s, e2] : List Nat) = [10])]
    rw [if_neg (by simp : ¬ ([s, e2] : List Nat) = [])]
    rw [if_neg (by rw [hkw]; exact hk)]
    rw [if_neg (by simp : ¬ ([s, e2] : List Nat).length = 1)]
    rw [hsec]
    have hex : section_exists [⟨nA, [s], [e1]⟩, ⟨nB, [s], [e2]⟩]
        (([s, e2] : List Nat).take 1) (([s, e2] : List Nat).drop (([s, e2] : List Nat).length - 1))
        = some nB := by
      simp [section_exists, hne]
    rw [hex]
    simp
  rw [hlex]
  rfl

/-- C5 witness: the amended statement at a concrete two-section grammar
sharing the open parenthesis start, closed by the second section's end
marker and a trailing byte. -/
theorem c5_witness :
    (tokenize ⟨[], [⟨[65], [40], [41]⟩, ⟨[66], [40], [93]⟩], [], [40, 93, 120],
        false⟩).2
      = .ok [.Section [66] [] (locStep 40 (1, 1))] :=
  c5_second_section_wins [65] [66] 40 41 93 120 [] [] false
    (by decide) (by decide) (by decide) (by decide) (by decide) (by decide)

/-- C4 (amended): for a grammar with no keywords and no sections, symbol
set S, whitespace preservation off, and a buffer whose bytes are all
ASCII and each either a space, a newline or a registered symbol
character, tokenize succeeds and yields exactly one Symbol token per
non-space, non-newline character excluding the final byte of the buffer,
in the order those characters appear (each carrying the name of the first
matching symbol entry).  The final byte is excluded because the scan loop
never processes it (see the counterexample). -/
theorem c4_one_symbol_per_char (S : List (Nat × List Nat)) (B : List Nat)
    (hB : ∀ b ∈ B, b < 128 ∧ (b = 32 ∨ b = 10 ∨ (symbolsLookup S b).isSome)) :
    Except.map (List.map Token.data) (tokenize ⟨[], [], S, B, false⟩).2
      = .ok ((B.dropLast.filter (fun b => decide (¬(b = 32 ∨ b = 10)))).map
          (fun b => TokenData.Symbol b ((symbolsLookup S b).getD []))) := by
  rw [tokenize_snd]
  set L0 : Lexer := ⟨[], [], S, B, false⟩ with hL0
  set L1 : Lexer := (tokenize L0).1 with hL1
  have hkw1 : L1.keywords = [] := tokenize_fst_keywords L0
  have hsec1 : L1.sections = [] := tokenize_fst_sections L0
  have haw1 : L1.allow_whitespace = false := tokenize_fst_allow L0
  have hbuf : L1.buffer = B := tokenize_fst_buffer L0
  have hsymb : L1.symbols = if (L0.symbols_contain 32).isNone
      then S ++ [(32, strBytes "Space")] else S := by
    rw [hL1, tokenize_fst]
    by_cases h : (L0.symbols_contain 32).isNone
    · rw [if_pos h, if_pos h]
    · rw [if_neg h, if_neg h]
  have hS : ∀ b, b ≠ 32 → L1.symbols_contain b = symbolsLookup S b := by
    intro b h32
    unfold Lexer.symbols_contain
    rw [hsymb]
    split
    · rw [symbolsLookup_append]
      cases hx : symbolsLookup S b with
      | some n => simp
      | none => simp [symbolsLookup, Ne.symm h32]
    · rfl
  rw [hbuf]
  rw [show initSt = (⟨.Normal, [], [], [], (1, 1)⟩ : St) from rfl]
  rw [run_symbols_scan L1 S hkw1 hsec1 haw1 hS B [] (1, 1) hB]
  simp

/-- C4 witness: the amended statement at the concrete symbol grammar with
open and close parenthesis and the buffer holding both: only the
non-final open parenthesis yields a Symbol token. -/
theorem c4_witness :
    Except.map (List.map Token.data)
        (tokenize ⟨[], [], [(40, [111]), (41, [112])], [40, 41], false⟩).2
      = .ok [.Symbol 40 [111]] :=
  c4_one_symbol_per_char [(40, [111]), (41, [112])] [40, 41] (by decide)

/-- C4 counterexample to the original claim: with the open and close
parentheses both registered symbols, the two-byte buffer holding exactly
those two characters yields one Symbol token, not one per character: the
close parenthesis is the final byte, never processed, and its token is
missing. -/
theorem c4_cex_final_symbol_missing :
    (tokenize ⟨[], [], [(40, [111]), (41, [112])], [40, 41], false⟩).2
      = .ok [.Symbol 40 [111] (1, 1)] := rfl

/-- C1 (amended): for a grammar holding exactly the section (name, s, e)
with single-character markers, the end marker not a backslash, and a
payload T containing no backslash and no occurrence of e, tokenizing the
buffer s plus T plus e plus one extra trailing byte yields exactly one
token, Section(name, T, location), whose text excludes both markers
(provided the whole text is not a registered keyword).  The trailing byte
is necessary: without it the closing marker occupies the final index,
which the scan loop never processes (see the counterexample). -/
theorem c1_round_trip_with_pad (nm : List Nat) (s e pad : Nat) (T : List Nat)
    (ks : List (List Nat)) (S : List (Nat × List Nat)) (aw : Bool)
    (hs : s < 128) (he : e < 128) (hpad : pad < 128) (he92 : e ≠ 92)
    (hT : ∀ t ∈ T, t < 128 ∧ t ≠ 92 ∧ t ≠ e)
    (hk : (s :: (T ++ [e])) ∉ ks) :
    (tokenize ⟨ks, [⟨nm, [s], [e]⟩], S, s :: (T ++ [e, pad]), aw⟩).2
      = .ok [.Section nm T (locsFold T (locStep s (1, 1)))] := by
  rw [tokenize_snd]
  set L0 : Lexer := ⟨ks, [⟨nm, [s], [e]⟩], S, s :: (T ++ [e, pad]), aw⟩ with hL0
  set L1 : Lexer := (tokenize L0).1 with hL1
  have hsec : L1.sections = [⟨nm, [s], [e]⟩] := tokenize_fst_sections L0
  have hkw : L1.keywords = ks := tokenize_fst_keywords L0
  have hbuf : L1.buffer = s :: (T ++ [e, pad]) := tokenize_fst_buffer L0
  rw [hbuf]
  rw [run_single_section_start L1 nm s [e] (T ++ [e, pad]) hs hsec (by simp)]
  have hcands : ∀ t ∈ T, t < 128 ∧ t ≠ 92
      ∧ L1.is_section (.End ((([Section.mk [] [s] [e]] : List Section).headD
          (Section.mk [] [] [])).start) [t]) = none := by
    intro t ht
    obtain ⟨h1, h2, h3⟩ := hT t ht
    refine ⟨h1, h2, ?_⟩
    show L1.is_section (.End [s] [t]) = none
    unfold Lexer.is_section
    rw [hsec]
    simp [is_sectionGo]
    exact fun hh => h3 hh.symm
  rw [run_section_skip L1 e pad T [s] [] [Section.mk [] [s] [e]]
      (locStep s (1, 1)) hcands]
  rw [run_section_close L1 e pad [] _ _ _ _ he he92 (Or.inr (by simp))]
  rw [run_single, if_pos hpad]
  have hsh : (([s] ++ T) ++ [e] : List Nat) = s :: (T ++ [e]) := by simp
  rw [hsh]
  rw [lex_token_section_eval L1 nm s e T (locsFold T (locStep s (1, 1))) hsec
      (by rw [hkw]; exact hk)]
  rfl

/-- C1 witness: the amended round trip at the concrete double-quote
section with payload ab and a trailing space. -/
theorem c1_witness :
    (tokenize ⟨[], [⟨[110], [34], [34]⟩], [], [34, 97, 98, 34, 32], false⟩).2
      = .ok [.Section [110] [97, 98] (1, 4)] :=
  c1_round_trip_with_pad [110] 34 34 32 [97, 98] [] [] false
    (by decide) (by decide) (by decide) (by decide) (by decide) (by decide)

/-- C1 counterexample to the original claim: for the double-quote section
named string and payload ab (no backslash, no end marker occurrence), the
buffer consisting exactly of start, payload and end marker tokenizes to a
single Ident token carrying the start marker and the payload — not a
Section token with the markers stripped.  The closing quote occupies the
final index and is never processed; the section is force-closed one byte
early and classified as a plain token. -/
theorem c1_cex_exact_buffer :
    (tokenize ⟨[], [⟨strBytes "string", [34], [34]⟩], [], [34, 97, 98, 34],
        false⟩).2 = .ok [.Ident [34, 97, 98] (1, 3)] := rfl

/-- C3 (amended): a scan that enters Section mode and reaches the end of
the buffer with no matching end marker does not fail: tokenize returns
Ok.  The force-close fires at the second-to-last byte, appending that
byte and discarding the final one; the accumulated text is then emitted
through the ordinary classifier lex_token (which yields a Section token
only if the first and last accumulated bytes happen to form a registered
marker pair, and otherwise an Ident or numeric token), emitting exactly
one token. -/
theorem c3_force_close_returns_ok (nm : List Nat) (s e u v : Nat) (T : List Nat)
    (ks : List (List Nat)) (S : List (Nat × List Nat)) (aw : Bool)
    (hs : s < 128) (hu : u < 128) (hv : v < 128) (hu92 : u ≠ 92) (hue : u ≠ e)
    (hT : ∀ t ∈ T, t < 128 ∧ t ≠ 92 ∧ t ≠ e) :
    (tokenize ⟨ks, [⟨nm, [s], [e]⟩], S, s :: (T ++ [u, v]), aw⟩).2
      = .ok ((lex_token (tokenize ⟨ks, [⟨nm, [s], [e]⟩], S, s :: (T ++ [u, v]), aw⟩).1
              (s :: (T ++ [u])) (locsFold T (locStep s (1, 1)))).toList)
    ∧ ∃ tk, lex_token (tokenize ⟨ks, [⟨nm, [s], [e]⟩], S, s :: (T ++ [u, v]), aw⟩).1
              (s :: (T ++ [u])) (locsFold T (locStep s (1, 1))) = some tk := by
  set L0 : Lexer := ⟨ks, [⟨nm, [s], [e]⟩], S, s :: (T ++ [u, v]), aw⟩ with hL0
  set L1 : Lexer := (tokenize L0).1 with hL1
  have hsec : L1.sections = [⟨nm, [s], [e]⟩] := tokenize_fst_sections L0
  have hbuf : L1.buffer = s :: (T ++ [u, v]) := tokenize_fst_buffer L0
  constructor
  · rw [tokenize_snd, hbuf]
    rw [run_single_section_start L1 nm s [e] (T ++ [u, v]) hs hsec (by simp)]
    have hcands : ∀ t ∈ T, t < 128 ∧ t ≠ 92
        ∧ L1.is_section (.End ((([Section.mk [] [s] [e]] : List Section).headD
            (Section.mk [] [] [])).start) [t]) = none := by
      intro t ht
      obtain ⟨h1, h2, h3⟩ := hT t ht
      refine ⟨h1, h2, ?_⟩
      show L1.is_section (.End [s] [t]) = none
      unfold Lexer.is_section
      rw [hsec]
      simp [is_sectionGo]
      exact fun hh => h3 hh.symm
    rw [run_section_skip L1 u v T [s] [] [Section.mk [] [s] [e]]
        (locStep s (1, 1)) hcands]
    rw [run_section_close L1 u v [] _ _ _ _ hu hu92 (Or.inr (by simp))]
    rw [run_single, if_pos hv]
    have hsh : (([s] ++ T) ++ [u] : List Nat) = s :: (T ++ [u]) := by simp
    rw [hsh]
    rfl
  · exact lex_token_isSome L1 (s :: (T ++ [u])) (locsFold T (locStep s (1, 1)))
      (by simp)
      (by
        intro hc
        have hcl := congrArg List.length hc
        simp only [List.length_cons, List.length_append] at hcl
        omega)

/-- C3 witness: the amended statement at the concrete unterminated
double-quote section with body ab and a dangling final byte. -/
theorem c3_witness :
    (tokenize ⟨[], [⟨[110], [34], [34]⟩], [], [34, 97, 98, 99], false⟩).2
      = .ok ((lex_token (tokenize ⟨[], [⟨[110], [34], [34]⟩], [],
              [34, 97, 98, 99], false⟩).1 [34, 97, 98] (1, 3)).toList)
    ∧ ∃ tk, lex_token (tokenize ⟨[], [⟨[110], [34], [34]⟩], [],
              [34, 97, 98, 99], false⟩).1 [34, 97, 98] (1, 3) = some tk :=
  c3_force_close_returns_ok [110] 34 34 98 99 [97] [] [] false
    (by decide) (by decide) (by decide) (by decide) (by decide) (by decide)

/-- C3 counterexample to the original claim: the unterminated
double-quote section with body ab is force-closed into an Ident token (a
Section token is never produced, because the force-closed text quote-a
does not end in a registered end marker), and the final byte b is lost. -/
theorem c3_cex_not_a_section_token :
    (tokenize ⟨[], [⟨strBytes "string", [34], [34]⟩], [], [34, 97, 98],
        false⟩).2 = .ok [.Ident [34, 97] (1, 2)] := rfl

/-- C6 (amended): in Section mode a backslash escapes the byte that
follows: that byte is appended to the pending text and never tested
against the section-close rules, so tokenizing start, backslash, end
marker, end marker and one extra trailing byte yields a single Section
token whose text is exactly the escaped end marker — not two tokens.  The
trailing byte is necessary: without it the genuine closing marker is the
final byte, which the scan loop never processes (see the
counterexample). -/
theorem c6_escaped_end_marker (nm : List Nat) (s e pad : Nat)
    (ks : List (List Nat)) (S : List (Nat × List Nat)) (aw : Bool)
    (hs : s < 128) (he : e < 128) (hpad : pad < 128) (he92 : e ≠ 92)
    (hk : ([s, e, e] : List Nat) ∉ ks) :
    (tokenize ⟨ks, [⟨nm, [s], [e]⟩], S, [s, 92, e, e, pad], aw⟩).2
      = .ok [.Section nm [e] (locStep 92 (locStep s (1, 1)))] := by
  rw [tokenize_snd]
  set L0 : Lexer := ⟨ks, [⟨nm, [s], [e]⟩], S, [s, 92, e, e, pad], aw⟩ with hL0
  set L1 : Lexer := (tokenize L0).1 with hL1
  have hsec : L1.sections = [⟨nm, [s], [e]⟩] := tokenize_fst_sections L0
  have hkw : L1.keywords = ks := tokenize_fst_keywords L0
  have hbuf : L1.buffer = [s, 92, e, e, pad] := tokenize_fst_buffer L0
  rw [hbuf]
  rw [show ([s, 92, e, e, pad] : List Nat) = s :: [92, e, e, pad] from rfl]
  rw [run_single_section_start L1 nm s [e] [92, e, e, pad] hs hsec (by simp)]
  rw [run_section_escape L1 [s] [] [Section.mk [] [s] [e]] (locStep s (1, 1))
      e [e, pad]]
  have hch : utf8Char e = [e] := by simp [utf8Char, he]
  rw [hch]
  rw [run_section_close L1 e pad [] _ _ _ _ he he92 (Or.inr (by simp))]
  rw [run_single, if_pos hpad]
  have hsh : (([s] ++ [e]) ++ [e] : List Nat) = s :: ([e] ++ [e]) := by simp
  rw [hsh]
  rw [lex_token_section_eval L1 nm s e [e] (locStep 92 (locStep s (1, 1))) hsec
      (by rw [hkw]; exact hk)]
  rfl

/-- C6 witness: the amended statement at the concrete double-quote
section, an escaped quote, the closing quote and a trailing space. -/
theorem c6_witness :
    (tokenize ⟨[], [⟨[110], [34], [34]⟩], [], [34, 92, 34, 34, 32], false⟩).2
      = .ok [.Section [110] [34] (1, 3)] :=
  c6_escaped_end_marker [110] 34 34 32 [] [] false
    (by decide) (by decide) (by decide) (by decide) (by decide)

/-- C6 counterexample to the original claim: for the double-quote section,
the buffer start, backslash, end marker, end marker (with no trailing
byte) yields no token at all — the escape consumes the first quote, the
second quote is the final byte and is never processed, and the pending
section text is silently dropped at the end of the loop. -/
theorem c6_cex_exact_buffer :
    (tokenize ⟨[], [⟨strBytes "s", [34], [34]⟩], [], [34, 92, 34, 34],
        false⟩).2 = .ok [] := rfl

/-- C5 counterexample to the original claim: the same two-section grammar
on the two-byte buffer holding exactly the shared start marker and the
second section's end marker produces no token at all (the end marker is
the final byte, which the loop never processes), rather than a Section
token named by the second section. -/
theorem c5_cex_no_trailing_byte :
    (tokenize ⟨[], [⟨[65], [40], [41]⟩, ⟨[66], [40], [93]⟩], [], [40, 93],
        false⟩).2 = .ok [] := rfl

end LibLexin
